import Mathlib

/-!
NativeWindow (Windows back end) of Serial-Studio

A shallow embedding of `app/src/Platform/NativeWindow_Windows.cpp`.

* Pointers are modelled by identity: a `QWindow *` is `Option Nat`
  (`none` is `nullptr`, `some a` is the window living at address `a`).
* The member variables `m_windows` (a `QList<QWindow *>`) and `m_colors`
  (a `QMap<QWindow *, QString>`) are the state, together with the table of
  signal/slot connections that `connect` has made towards
  `NativeWindow::onActiveChanged`.
* Qt delivers a signal synchronously: `Q_EMIT w->activeChanged()` runs the slot
  once per connection before it returns.  Every operation therefore returns an
  `Outcome`: the state it leaves, the slot invocations it caused, the
  `DwmSetWindowAttribute` calls it made, and whether it dereferenced `nullptr`.
* What the file reads from the outside (OS version string, theme palette,
  `QColor` construction, native window handles) is gathered in `Platform`.
-/

namespace NativeWindow

/-! Qt values -/

/-- A `QWindow *`: `none` is `nullptr`. -/
abbrev WinPtr := Option Nat

/-- A `QObject *` handed to the adapter: null, a pointer to an object that is
a `QWindow`, or a pointer to some other `QObject`. -/
inductive QObjectPtr where
  | null
  | window (addr : Nat)
  | other (addr : Nat)
  deriving DecidableEq, Repr

/-- The cast `qobject_cast<QWindow *>(obj)`: the same pointer when the object is
a `QWindow`, `nullptr` otherwise (also for a null argument). -/
def qobject_cast : QObjectPtr → WinPtr
  | .window a => some a
  | .null => none
  | .other _ => none

/-- The test `QString::contains(sub)` on character lists: `sub` starts at some
position of `s`. -/
def containsChars (sub : List Char) : List Char → Bool
  | [] => sub.isEmpty
  | c :: cs => sub.isPrefixOf (c :: cs) || containsChars sub cs

/-- The test `QString::contains(sub)`, case sensitive. -/
def QString.contains (s sub : String) : Bool :=
  containsChars sub.toList s.toList

/-- The lookup `QList::contains`. -/
def QList.contains (l : List WinPtr) (w : WinPtr) : Bool :=
  l.any (fun x => decide (x = w))

/-- The lookup `QMap::value(key)`: the stored value, or a default-constructed
(empty) `QString` when the key is absent. -/
def QMap.value : List (WinPtr × String) → WinPtr → String
  | [], _ => ""
  | (k, v) :: rest, key => if k = key then v else QMap.value rest key

/-- The update `QMap::insert(key, value)`: replaces the value of an existing
key, adds the pair otherwise.  (The key order a `QMap` keeps internally is not
observable through `value`, so pairs are kept in insertion order.) -/
def QMap.insert : List (WinPtr × String) → WinPtr → String → List (WinPtr × String)
  | [], key, value => [(key, value)]
  | (k, v) :: rest, key, value =>
    if k = key then (k, value) :: rest else (k, v) :: QMap.insert rest key value

/-- The keys of a `QMap`. -/
def QMap.keys (m : List (WinPtr × String)) : List WinPtr :=
  m.map Prod.fst

/-- The lookup `colors.value(key).toString()` on the theme palette: the string
stored under `key`, the empty string when there is none. -/
def paletteValue : List (String × String) → String → String
  | [], _ => ""
  | (k, v) :: rest, key => if k = key then v else paletteValue rest key

/-- The components read from a `QColor` with `red()`, `green()`, `blue()`. -/
structure QColor where
  red : Nat
  green : Nat
  blue : Nat
  deriving DecidableEq, Repr

/-! Collaborators -/

/-- What the adapter reads from outside this file. -/
structure Platform where
  /-- The string `QSysInfo::productVersion()`. -/
  productVersion : String
  /-- The palette `Misc::ThemeManager::instance().colors()`. -/
  colors : List (String × String)
  /-- The constructor `QColor(const QString &)`. -/
  qcolor : String → QColor
  /-- The native handle `QWindow::winId()` of the window at an address. -/
  winId : Nat → Nat

/-- Value of a hexadecimal digit, `none` for any other character. -/
def hexDigit (c : Char) : Option Nat :=
  if '0' ≤ c ∧ c ≤ '9' then some (c.toNat - '0'.toNat)
  else if 'a' ≤ c ∧ c ≤ 'f' then some (c.toNat - 'a'.toNat + 10)
  else if 'A' ≤ c ∧ c ≤ 'F' then some (c.toNat - 'A'.toNat + 10)
  else none

/-- Value of a two-digit hexadecimal number. -/
def hexByte (hi lo : Char) : Option Nat :=
  match hexDigit hi, hexDigit lo with
  | some h, some l => some (16 * h + l)
  | _, _ => none

/-- Modelled from the spec: the constructor `QColor(const QString &)` belongs to
the Qt library and is not part of this repository.  The spec describes colour
strings as hex-like (`"#101010"` is red 0x10, green 0x10, blue 0x10), so this
instance reads the form `#RRGGBB`; any other text gives the invalid colour,
whose components all read 0. -/
def hexColor (s : String) : QColor :=
  match s.toList with
  | ['#', r1, r0, g1, g0, b1, b0] =>
    match hexByte r1 r0, hexByte g1 g0, hexByte b1 b0 with
    | some r, some g, some b => ⟨r, g, b⟩
    | _, _, _ => ⟨0, 0, 0⟩
  | _ => ⟨0, 0, 0⟩

/-! The adapter -/

/-- One call `DwmSetWindowAttribute(hwnd, attribute, &value, size)`. -/
structure DwmCall where
  hwnd : Nat
  attributeId : Nat
  value : Nat
  size : Nat
  deriving DecidableEq, Repr

/-- The adapter object: its two member containers and the connections made so
far from a window's `activeChanged` signal to the slot `onActiveChanged`
(one entry per successful `connect`). -/
structure State where
  m_windows : List WinPtr
  m_colors : List (WinPtr × String)
  connected : List Nat
  deriving DecidableEq, Repr

/-- The adapter right after construction. -/
def State.init : State := ⟨[], [], []⟩

/-- What an operation did. -/
structure Outcome where
  /-- The adapter after the operation. -/
  state : State
  /-- The senders of the invocations of the slot `onActiveChanged`, in order. -/
  activated : List Nat
  /-- The OS calls made, in order. -/
  dwm : List DwmCall
  /-- Whether the operation called a member function through `nullptr`; when
  set, the other fields describe the execution up to that point. -/
  fault : Bool
  deriving DecidableEq, Repr

/-- The expression `c.red() | (c.green() << 8) | (c.blue() << 16)` stored in a
`COLORREF` (an unsigned 32-bit integer). -/
def colorref (red green blue : Nat) : Nat :=
  (red ||| (green <<< 8) ||| (blue <<< 16)) % 2 ^ 32

/-- The colour string `onActiveChanged` settles on for a tracked window: the
entry of `m_colors`, or the palette entry `"toolbar_top"` when that is empty. -/
def effectiveColor (P : Platform) (s : State) (window : WinPtr) : String :=
  let color := QMap.value s.m_colors window
  if color.isEmpty then paletteValue P.colors "toolbar_top" else color

/-- The slot `NativeWindow::onActiveChanged`, run with `sender()` equal to
`sender`.  It changes no member; the result is the list of OS calls made. -/
def onActiveChanged (P : Platform) (s : State) (sender : WinPtr) : List DwmCall :=
  if !QString.contains P.productVersion "11" then []
  else
    match sender with
    | none => []
    | some a =>
      if !QList.contains s.m_windows (some a) then []
      else
        let c := P.qcolor (effectiveColor P s (some a))
        [⟨P.winId a, 35, colorref c.red c.green c.blue, 4⟩]

/-- The statement `Q_EMIT w->activeChanged()` for a non-null `w`: the slot runs
once for every connection made from that window. -/
def emitActiveChanged (P : Platform) (s : State) (a : Nat) : Outcome :=
  let n := s.connected.count a
  ⟨s, List.replicate n a,
    (List.replicate n (onActiveChanged P s (some a))).flatten, false⟩

/-- The method `NativeWindow::addWindow`. -/
def addWindow (P : Platform) (s : State) (window : QObjectPtr) (color : String) :
    Outcome :=
  let w := qobject_cast window
  if !QList.contains s.m_windows w then
    let s1 : State := { s with m_windows := s.m_windows ++ [w] }
    let s2 : State := { s1 with m_colors := QMap.insert s1.m_colors w color }
    match w with
    | none =>
      -- `connect` rejects a null sender; `w->activeChanged()` goes through null
      ⟨s2, [], [], true⟩
    | some a =>
      let s3 : State := { s2 with connected := s2.connected ++ [a] }
      emitActiveChanged P s3 a
  else ⟨s, [], [], false⟩

/-- The loop of `NativeWindow::onThemeChanged` over the remaining windows. -/
def themeLoop (P : Platform) (s : State) : List WinPtr → Outcome
  | [] => ⟨s, [], [], false⟩
  | none :: _ => ⟨s, [], [], true⟩
  | some a :: rest =>
    let o := emitActiveChanged P s a
    let r := themeLoop P s rest
    ⟨s, o.activated ++ r.activated, o.dwm ++ r.dwm, r.fault⟩

/-- The slot `NativeWindow::onThemeChanged`. -/
def onThemeChanged (P : Platform) (s : State) : Outcome :=
  themeLoop P s s.m_windows

/-- The method `NativeWindow::titlebarHeight`: the returned height and the
adapter afterwards. -/
def titlebarHeight (s : State) (window : QObjectPtr) : Int × State :=
  let _ := window
  (0, s)

/-- The calls the adapter receives. -/
inductive Op where
  | addWindow (window : QObjectPtr) (color : String)
  | onThemeChanged
  | onActiveChanged (sender : WinPtr)
  deriving DecidableEq, Repr

/-- Running one call. -/
def step (P : Platform) (s : State) : Op → Outcome
  | .addWindow window color => addWindow P s window color
  | .onThemeChanged => onThemeChanged P s
  | .onActiveChanged sender => ⟨s, [], onActiveChanged P s sender, false⟩

/-- States the adapter passes through: from the constructed adapter, by calls
of `addWindow`, `onThemeChanged` and `onActiveChanged` that run to completion
(a call that goes through `nullptr` has no successor state).  The
collaborators may differ from call to call. -/
inductive Reachable : State → Prop where
  | init : Reachable State.init
  | step (P : Platform) (s : State) (op : Op) :
      Reachable s → (step P s op).fault = false → Reachable (step P s op).state

/-- The registry is consistent: the tracked list is the list of connected
windows (so it holds no null pointer), without repetition, and the keys of
`m_colors` are the tracked windows. -/
def Consistent (s : State) : Prop :=
  s.m_windows = s.connected.map some ∧ s.connected.Nodup ∧
    ∀ w, w ∈ QMap.keys s.m_colors ↔ w ∈ s.m_windows

/-- A sample platform reporting Windows 11, with a one-entry palette. -/
def win11 : Platform :=
  ⟨"11", [("toolbar_top", "#101010")], hexColor, fun a => 4096 + a⟩

/-- A sample platform reporting Windows 10, with the same palette. -/
def win10 : Platform :=
  ⟨"10", [("toolbar_top", "#101010")], hexColor, fun a => 4096 + a⟩

/-- A sample adapter: window 3 registered with "#ABCDEF", then window 4
registered with no colour of its own. -/
def twoWindows : State :=
  (addWindow win11 (addWindow win11 State.init (.window 3) "#ABCDEF").state
    (.window 4) "").state

/-! Facts about the Qt containers -/

theorem containsChars_iff (sub s : List Char) :
    containsChars sub s = true ↔ ∃ pre post : List Char, pre ++ sub ++ post = s := by
  induction s with
  | nil =>
    constructor
    · intro h
      have hsub : sub = [] := by simpa [containsChars] using h
      exact ⟨[], [], by simp [hsub]⟩
    · rintro ⟨pre, post, h⟩
      have hsub : sub = [] := by
        have hlen := congrArg List.length h
        simp only [List.length_append, List.length_nil] at hlen
        exact List.eq_nil_of_length_eq_zero (by omega)
      simp [containsChars, hsub]
  | cons c cs ih =>
    simp only [containsChars, Bool.or_eq_true, ih]
    constructor
    · rintro (h | ⟨pre, post, h⟩)
      · obtain ⟨t, ht⟩ := List.isPrefixOf_iff_prefix.mp h
        exact ⟨[], t, by simpa using ht⟩
      · exact ⟨c :: pre, post, by simp [← h]⟩
    · rintro ⟨pre, post, h⟩
      cases pre with
      | nil =>
        left
        exact List.isPrefixOf_iff_prefix.mpr ⟨post, by simpa using h⟩
      | cons d pre =>
        right
        simp only [List.cons_append, List.cons.injEq] at h
        exact ⟨pre, post, h.2⟩

theorem qstring_contains_iff (s sub : String) :
    QString.contains s sub = true ↔ ∃ pre post : String, s = pre ++ sub ++ post := by
  unfold QString.contains
  rw [containsChars_iff]
  constructor
  · rintro ⟨pre, post, h⟩
    refine ⟨⟨pre⟩, ⟨post⟩, ?_⟩
    apply String.ext
    simp [String.toList] at h
    simp [h]
  · rintro ⟨pre, post, h⟩
    refine ⟨pre.toList, post.toList, ?_⟩
    rw [h]
    simp [String.toList]

theorem qlist_contains_iff (l : List WinPtr) (w : WinPtr) :
    QList.contains l w = true ↔ w ∈ l := by
  unfold QList.contains
  rw [List.any_eq_true]
  constructor
  · rintro ⟨x, hx, hd⟩
    have hxw : x = w := of_decide_eq_true hd
    exact hxw ▸ hx
  · intro h
    exact ⟨w, h, decide_eq_true rfl⟩

theorem qmap_mem_keys_insert (m : List (WinPtr × String)) (k w : WinPtr) (v : String) :
    w ∈ QMap.keys (QMap.insert m k v) ↔ w = k ∨ w ∈ QMap.keys m := by
  induction m with
  | nil => simp [QMap.insert, QMap.keys]
  | cons e rest ih =>
    obtain ⟨k0, v0⟩ := e
    unfold QMap.keys at ih ⊢
    by_cases h : k0 = k
    · subst h
      simp [QMap.insert]
    · simp only [QMap.insert, h, if_false, List.map_cons, List.mem_cons, ih]
      tauto

theorem qmap_value_insert_self (m : List (WinPtr × String)) (k : WinPtr) (v : String) :
    QMap.value (QMap.insert m k v) k = v := by
  induction m with
  | nil => simp [QMap.insert, QMap.value]
  | cons e rest ih =>
    obtain ⟨k0, v0⟩ := e
    by_cases h : k0 = k
    · simp [QMap.insert, QMap.value, h]
    · simp [QMap.insert, QMap.value, h, ih]

theorem qmap_value_insert_of_ne (m : List (WinPtr × String)) (k w : WinPtr) (v : String)
    (hne : w ≠ k) : QMap.value (QMap.insert m k v) w = QMap.value m w := by
  induction m with
  | nil =>
    have : ¬ k = w := fun h => hne h.symm
    simp [QMap.insert, QMap.value, this]
  | cons e rest ih =>
    obtain ⟨k0, v0⟩ := e
    by_cases h : k0 = k
    · subst h
      have : ¬ k0 = w := fun h => hne h.symm
      simp [QMap.insert, QMap.value, this]
    · by_cases h2 : k0 = w
      · subst h2
        simp [QMap.insert, QMap.value, h]
      · simp [QMap.insert, QMap.value, h, h2, ih]

/-! Colour packing -/

theorem colorref_eq_add (r g b : Nat) (hr : r < 256) (hg : g < 256) (hb : b < 256) :
    colorref r g b = r + 256 * g + 65536 * b := by
  have h1 : 2 ^ 8 * g + r = 2 ^ 8 * g ||| r := Nat.mul_add_lt_is_or (by omega) g
  have h2 : 2 ^ 16 * b + (2 ^ 8 * g + r) = 2 ^ 16 * b ||| (2 ^ 8 * g + r) :=
    Nat.mul_add_lt_is_or (by omega) b
  have h3 : r ||| (g <<< 8) ||| (b <<< 16) = r + 256 * g + 65536 * b := by
    rw [Nat.shiftLeft_eq, Nat.shiftLeft_eq, Nat.mul_comm g, Nat.mul_comm b,
      Nat.lor_comm r, Nat.lor_comm _ (2 ^ 16 * b), ← h1, ← h2]
    omega
  unfold colorref
  rw [h3]
  omega

theorem onActiveChanged_tracked (P : Platform) (s : State) (a : Nat)
    (hver : ∃ pre post : String, P.productVersion = pre ++ "11" ++ post)
    (htracked : some a ∈ s.m_windows) :
    onActiveChanged P s (some a) =
      [⟨P.winId a, 35,
        colorref (P.qcolor (effectiveColor P s (some a))).red
          (P.qcolor (effectiveColor P s (some a))).green
          (P.qcolor (effectiveColor P s (some a))).blue, 4⟩] := by
  have h1 : QString.contains P.productVersion "11" = true :=
    (qstring_contains_iff _ _).mpr hver
  have h2 : QList.contains s.m_windows (some a) = true :=
    (qlist_contains_iff _ _).mpr htracked
  simp [onActiveChanged, h1, h2]

theorem effectiveColor_of_empty (P : Platform) (s : State) (w : WinPtr)
    (h : QMap.value s.m_colors w = "") :
    effectiveColor P s w = paletteValue P.colors "toolbar_top" := by
  have he : (QMap.value s.m_colors w).isEmpty = true := (String.isEmpty_iff _).mpr h
  simp [effectiveColor, he]

theorem effectiveColor_of_override (P : Platform) (s : State) (w : WinPtr)
    (h : QMap.value s.m_colors w ≠ "") :
    effectiveColor P s w = QMap.value s.m_colors w := by
  have he : ¬ (QMap.value s.m_colors w).isEmpty = true :=
    fun hc => h ((String.isEmpty_iff _).mp hc)
  simp [effectiveColor, he]

/-! Emission and registration -/

theorem emitActiveChanged_once (P : Platform) (s : State) (a : Nat)
    (h : s.connected.count a = 1) :
    emitActiveChanged P s a = ⟨s, [a], onActiveChanged P s (some a), false⟩ := by
  simp [emitActiveChanged, h]

theorem themeLoop_connected (P : Platform) (s : State) (l : List Nat)
    (h : ∀ a ∈ l, s.connected.count a = 1) :
    themeLoop P s (l.map some) =
      ⟨s, l, (l.map (fun a => onActiveChanged P s (some a))).flatten, false⟩ := by
  induction l with
  | nil => simp [themeLoop]
  | cons a rest ih =>
    have ha : s.connected.count a = 1 := h a (List.mem_cons_self a rest)
    have hrest : ∀ b ∈ rest, s.connected.count b = 1 :=
      fun b hb => h b (List.mem_cons_of_mem a hb)
    simp [themeLoop, ih hrest, emitActiveChanged_once P s a ha]

theorem addWindow_known (P : Platform) (s : State) (window : QObjectPtr) (color : String)
    (h : qobject_cast window ∈ s.m_windows) :
    addWindow P s window color = ⟨s, [], [], false⟩ := by
  have hc : QList.contains s.m_windows (qobject_cast window) = true :=
    (qlist_contains_iff _ _).mpr h
  simp [addWindow, hc]

theorem addWindow_new_window (P : Platform) (s : State) (window : QObjectPtr)
    (color : String) (a : Nat) (hq : qobject_cast window = some a)
    (h : some a ∉ s.m_windows) :
    addWindow P s window color =
      emitActiveChanged P
        ⟨s.m_windows ++ [some a], QMap.insert s.m_colors (some a) color,
          s.connected ++ [a]⟩ a := by
  have hc : QList.contains s.m_windows (some a) = false := by
    rw [← Bool.not_eq_true, qlist_contains_iff]
    exact h
  simp [addWindow, hq, hc]

theorem addWindow_new_null (P : Platform) (s : State) (window : QObjectPtr)
    (color : String) (hq : qobject_cast window = none) (h : none ∉ s.m_windows) :
    addWindow P s window color =
      ⟨⟨s.m_windows ++ [none], QMap.insert s.m_colors none color, s.connected⟩,
        [], [], true⟩ := by
  have hc : QList.contains s.m_windows none = false := by
    rw [← Bool.not_eq_true, qlist_contains_iff]
    exact h
  simp [addWindow, hq, hc]

theorem addWindow_keys (P : Platform) (s : State) (window : QObjectPtr) (color : String)
    (h : ∀ w, w ∈ QMap.keys s.m_colors ↔ w ∈ s.m_windows) (w : WinPtr) :
    w ∈ QMap.keys (addWindow P s window color).state.m_colors ↔
      w ∈ (addWindow P s window color).state.m_windows := by
  by_cases hc : qobject_cast window ∈ s.m_windows
  · rw [addWindow_known P s window color hc]
    exact h w
  · cases hq : qobject_cast window with
    | none =>
      rw [hq] at hc
      rw [addWindow_new_null P s window color hq hc]
      simp [qmap_mem_keys_insert, h w, or_comm]
    | some a =>
      rw [hq] at hc
      rw [addWindow_new_window P s window color a hq hc]
      simp [emitActiveChanged, qmap_mem_keys_insert, h w, or_comm]

theorem themeLoop_state (P : Platform) (s : State) (l : List WinPtr) :
    (themeLoop P s l).state = s := by
  induction l with
  | nil => rfl
  | cons w rest ih =>
    cases w with
    | none => rfl
    | some a => rfl

theorem step_keys (P : Platform) (s : State) (op : Op)
    (h : ∀ w, w ∈ QMap.keys s.m_colors ↔ w ∈ s.m_windows) (w : WinPtr) :
    w ∈ QMap.keys (step P s op).state.m_colors ↔ w ∈ (step P s op).state.m_windows := by
  cases op with
  | addWindow window color => exact addWindow_keys P s window color h w
  | onThemeChanged =>
    simp only [step, onThemeChanged, themeLoop_state]
    exact h w
  | onActiveChanged sender => exact h w

theorem addWindow_consistent (P : Platform) (s : State) (window : QObjectPtr)
    (color : String) (h : Consistent s) (hf : (addWindow P s window color).fault = false) :
    Consistent (addWindow P s window color).state := by
  obtain ⟨hw, hnd, hk⟩ := h
  refine ⟨?_, ?_, fun w => addWindow_keys P s window color hk w⟩
  · by_cases hc : qobject_cast window ∈ s.m_windows
    · rw [addWindow_known P s window color hc]
      exact hw
    · cases hq : qobject_cast window with
      | none =>
        rw [hq] at hc
        rw [addWindow_new_null P s window color hq hc] at hf
        exact absurd hf (by simp)
      | some a =>
        rw [hq] at hc
        rw [addWindow_new_window P s window color a hq hc]
        simp [emitActiveChanged, hw]
  · by_cases hc : qobject_cast window ∈ s.m_windows
    · rw [addWindow_known P s window color hc]
      exact hnd
    · cases hq : qobject_cast window with
      | none =>
        rw [hq] at hc
        rw [addWindow_new_null P s window color hq hc] at hf
        exact absurd hf (by simp)
      | some a =>
        rw [hq] at hc
        rw [addWindow_new_window P s window color a hq hc]
        have ha : a ∉ s.connected := fun hmem =>
          hc (hw ▸ List.mem_map.mpr ⟨a, hmem, rfl⟩)
        simp only [emitActiveChanged]
        exact List.nodup_append.mpr ⟨hnd, List.nodup_singleton a, by simpa using ha⟩

theorem reachable_consistent (s : State) (h : Reachable s) : Consistent s := by
  induction h with
  | init => exact ⟨rfl, List.nodup_nil, fun w => Iff.rfl⟩
  | step P s op _ hf ih =>
    cases op with
    | addWindow window color => exact addWindow_consistent P s window color ih hf
    | onThemeChanged =>
      simp only [step, onThemeChanged, themeLoop_state]
      exact ih
    | onActiveChanged sender => exact ih

theorem onActiveChanged_other_version_aux (P : Platform) (s : State) (sender : WinPtr)
    (hver : ¬ ∃ pre post : String, P.productVersion = pre ++ "11" ++ post) :
    onActiveChanged P s sender = [] := by
  have h : QString.contains P.productVersion "11" = false := by
    rw [← Bool.not_eq_true, qstring_contains_iff]
    exact hver
  simp [onActiveChanged, h]

theorem twoWindows_reachable : Reachable twoWindows :=
  Reachable.step win11 _ (.addWindow (.window 4) "")
    (Reachable.step win11 State.init (.addWindow (.window 3) "#ABCDEF")
      Reachable.init rfl) rfl

/-! The claims -/

/-- C1: on an OS version containing "11", for a tracked window whose resolved
colour has components red, green, blue, each in 0..255, the one OS call made by
`onActiveChanged` carries the value `red + 256*green + 65536*blue`, which is
`red | (green << 8) | (blue << 16)`: byte 0 is red, byte 1 is green, byte 2 is
blue, byte 3 is 0 and the value is below 2^24.  RGB (18, 52, 86) packs to
0x00563412. -/
theorem colorref_exact (P : Platform) (s : State) (a r g b : Nat)
    (hver : ∃ pre post : String, P.productVersion = pre ++ "11" ++ post)
    (htracked : some a ∈ s.m_windows)
    (hcol : P.qcolor (effectiveColor P s (some a)) = ⟨r, g, b⟩)
    (hr : r < 256) (hg : g < 256) (hb : b < 256) :
    onActiveChanged P s (some a) = [⟨P.winId a, 35, r + 256 * g + 65536 * b, 4⟩] ∧
      colorref r g b = r + 256 * g + 65536 * b ∧
      colorref r g b = r ||| (g <<< 8) ||| (b <<< 16) ∧
      colorref r g b % 256 = r ∧
      colorref r g b / 256 % 256 = g ∧
      colorref r g b / 65536 % 256 = b ∧
      colorref r g b / 16777216 = 0 ∧
      colorref r g b < 2 ^ 24 ∧
      colorref 18 52 86 = 0x00563412 := by
  have hadd := colorref_eq_add r g b hr hg hb
  have hcall := onActiveChanged_tracked P s a hver htracked
  rw [hcol] at hcall
  simp only [hadd] at hcall
  have hlt : r + 256 * g + 65536 * b < 2 ^ 32 := by omega
  have hor : colorref r g b = r ||| (g <<< 8) ||| (b <<< 16) := by
    have hdef : colorref r g b = (r ||| (g <<< 8) ||| (b <<< 16)) % 2 ^ 32 := rfl
    have hmod : (r ||| (g <<< 8) ||| (b <<< 16)) % 2 ^ 32 < 2 ^ 32 :=
      Nat.mod_lt _ (by norm_num)
    have hbound : r ||| (g <<< 8) ||| (b <<< 16) < 2 ^ 32 := by
      apply Nat.or_lt_two_pow
      · apply Nat.or_lt_two_pow
        · omega
        · rw [Nat.shiftLeft_eq]; omega
      · rw [Nat.shiftLeft_eq]; omega
    rw [hdef, Nat.mod_eq_of_lt hbound]
  refine ⟨hcall, hadd, hor, ?_, ?_, ?_, ?_, ?_, by decide⟩ <;> rw [hadd] <;> omega

theorem colorref_exact_witness :
    onActiveChanged win11 ⟨[some 7], [(some 7, "#123456")], [7]⟩ (some 7)
        = [⟨4103, 35, 0x00563412, 4⟩] ∧
      colorref 18 52 86 % 256 = 18 ∧ colorref 18 52 86 / 256 % 256 = 52 ∧
      colorref 18 52 86 / 65536 % 256 = 86 ∧ colorref 18 52 86 / 16777216 = 0 :=
  have h := colorref_exact win11 ⟨[some 7], [(some 7, "#123456")], [7]⟩ 7 18 52 86
    ⟨"", "", rfl⟩ (by decide) (by decide) (by decide) (by decide) (by decide)
  ⟨h.1, h.2.2.2.1, h.2.2.2.2.1, h.2.2.2.2.2.1, h.2.2.2.2.2.2.1⟩

/-- C2 (the code departs from it): registering a reference that is not a window
on a fresh adapter is not a no-op.  The null pointer produced by the cast is
appended to the tracked list and entered in the colour map, and the signal is
then emitted through that null pointer. -/
theorem addWindow_uncastable_tracks_null (P : Platform) (color : String) :
    addWindow P State.init (.other 0) color =
        ⟨⟨[none], [(none, color)], []⟩, [], [], true⟩ ∧
      addWindow P State.init .null color =
        ⟨⟨[none], [(none, color)], []⟩, [], [], true⟩ := by
  constructor <;> rfl

/-- C3: registering a window that is not tracked appends exactly that window at
the end of the tracked list (the length grows by one, the earlier entries stay
in place), records the given colour for it and leaves the colours of the other
windows as they were.  The handler runs once per connection of that window; in
a reachable adapter state that is exactly once, for that window, in the new
state. -/
theorem addWindow_untracked (P : Platform) (s : State) (a : Nat) (color : String)
    (hnew : some a ∉ s.m_windows) :
    (addWindow P s (.window a) color).state.m_windows = s.m_windows ++ [some a] ∧
      (addWindow P s (.window a) color).state.m_windows.length
        = s.m_windows.length + 1 ∧
      QMap.value (addWindow P s (.window a) color).state.m_colors (some a) = color ∧
      (∀ w, w ≠ some a →
        QMap.value (addWindow P s (.window a) color).state.m_colors w
          = QMap.value s.m_colors w) ∧
      (addWindow P s (.window a) color).fault = false ∧
      (addWindow P s (.window a) color).activated
        = List.replicate (s.connected.count a + 1) a ∧
      (Reachable s →
        (addWindow P s (.window a) color).activated = [a] ∧
        (addWindow P s (.window a) color).dwm
          = onActiveChanged P (addWindow P s (.window a) color).state (some a)) := by
  rw [addWindow_new_window P s (.window a) color a rfl hnew]
  refine ⟨rfl, by simp [emitActiveChanged], qmap_value_insert_self _ _ _, ?_, rfl, ?_, ?_⟩
  · intro w hne
    exact qmap_value_insert_of_ne _ _ _ _ hne
  · simp [emitActiveChanged, List.count_append]
  · intro hreach
    obtain ⟨hw, _, _⟩ := reachable_consistent s hreach
    have ha : a ∉ s.connected := fun hmem =>
      hnew (hw ▸ List.mem_map.mpr ⟨a, hmem, rfl⟩)
    have hcount : (s.connected ++ [a]).count a = 1 := by
      simp [List.count_append, List.count_eq_zero_of_not_mem ha]
    rw [emitActiveChanged_once P _ a hcount]
    exact ⟨rfl, rfl⟩

theorem addWindow_untracked_witness :
    (addWindow win11 twoWindows (.window 5) "#123456").state.m_windows
        = [some 3, some 4, some 5] ∧
      QMap.value (addWindow win11 twoWindows (.window 5) "#123456").state.m_colors
        (some 5) = "#123456" ∧
      (addWindow win11 twoWindows (.window 5) "#123456").fault = false ∧
      (addWindow win11 twoWindows (.window 5) "#123456").activated = [5] ∧
      (addWindow win11 twoWindows (.window 5) "#123456").dwm
        = [⟨4101, 35, 0x00563412, 4⟩] :=
  have h := addWindow_untracked win11 twoWindows 5 "#123456" (by decide)
  have hr := h.2.2.2.2.2.2 twoWindows_reachable
  ⟨h.1, h.2.2.1, h.2.2.2.2.1, hr.1, hr.2.trans (by decide)⟩

/-- C4: registering a window that is already tracked, with any colour, changes
nothing: the adapter state (tracked list, colour map) is the same, no handler
runs and no OS call is made.  Hence, from any state, a second registration of
the same window leaves the state the first registration produced. -/
theorem addWindow_tracked_noop (P : Platform) (s : State) (a : Nat) (color : String)
    (htracked : some a ∈ s.m_windows) :
    addWindow P s (.window a) color = ⟨s, [], [], false⟩ ∧
      ∀ (t : State) (c1 c2 : String),
        addWindow P (addWindow P t (.window a) c1).state (.window a) c2
          = ⟨(addWindow P t (.window a) c1).state, [], [], false⟩ := by
  refine ⟨addWindow_known P s (.window a) color htracked, ?_⟩
  intro t c1 c2
  apply addWindow_known
  by_cases ht : some a ∈ t.m_windows
  · rw [addWindow_known P t (.window a) c1 ht]
    exact ht
  · rw [addWindow_new_window P t (.window a) c1 a rfl ht]
    simp [emitActiveChanged, qobject_cast]

theorem addWindow_tracked_noop_witness :
    some 3 ∈ twoWindows.m_windows ∧
      addWindow win11 twoWindows (.window 3) "#000000" = ⟨twoWindows, [], [], false⟩ :=
  ⟨by decide, (addWindow_tracked_noop win11 twoWindows 3 "#000000" (by decide)).1⟩

/-- C5: when the OS version string does not contain "11", `onActiveChanged`
makes no OS call, whatever the adapter state, the sender and the palette. -/
theorem onActiveChanged_other_version (P : Platform) (s : State) (sender : WinPtr)
    (hver : ¬ ∃ pre post : String, P.productVersion = pre ++ "11" ++ post) :
    onActiveChanged P s sender = [] :=
  onActiveChanged_other_version_aux P s sender hver

theorem onActiveChanged_other_version_witness :
    onActiveChanged win10 twoWindows (some 3) = [] :=
  onActiveChanged_other_version win10 twoWindows (some 3)
    (fun h => absurd ((qstring_contains_iff "10" "11").mpr h) (by decide))

/-- C6: on an OS version containing "11", for a tracked window whose recorded
colour is empty, `onActiveChanged` makes one OS call, with attribute 35 and the
packed colour of the palette entry "toolbar_top".  With the palette
{"toolbar_top": "#101010"}, read as (0x10, 0x10, 0x10), the value is
0x00101010. -/
theorem onActiveChanged_empty_override (P : Platform) (s : State) (a : Nat)
    (hver : ∃ pre post : String, P.productVersion = pre ++ "11" ++ post)
    (htracked : some a ∈ s.m_windows)
    (hempty : QMap.value s.m_colors (some a) = "") :
    onActiveChanged P s (some a) =
        [⟨P.winId a, 35,
          colorref (P.qcolor (paletteValue P.colors "toolbar_top")).red
            (P.qcolor (paletteValue P.colors "toolbar_top")).green
            (P.qcolor (paletteValue P.colors "toolbar_top")).blue, 4⟩] ∧
      (P.colors = [("toolbar_top", "#101010")] →
        P.qcolor "#101010" = ⟨0x10, 0x10, 0x10⟩ →
        onActiveChanged P s (some a) = [⟨P.winId a, 35, 0x00101010, 4⟩]) := by
  have hcall := onActiveChanged_tracked P s a hver htracked
  rw [effectiveColor_of_empty P s (some a) hempty] at hcall
  refine ⟨hcall, ?_⟩
  intro hpal hq
  have hv : paletteValue P.colors "toolbar_top" = "#101010" := by
    rw [hpal]
    decide
  have hpack : colorref 0x10 0x10 0x10 = 0x00101010 := by decide
  rw [hcall, hv, hq]
  show [DwmCall.mk (P.winId a) 35 (colorref 0x10 0x10 0x10) 4] = _
  rw [hpack]

theorem onActiveChanged_empty_override_witness :
    onActiveChanged win11 twoWindows (some 4) = [⟨4100, 35, 0x00101010, 4⟩] :=
  (onActiveChanged_empty_override win11 twoWindows 4 ⟨"", "", rfl⟩ (by decide)
    (by decide)).2 rfl (by decide)

/-- C7: for a tracked window whose recorded colour is not empty, the OS calls of
`onActiveChanged` are the same under any two palettes (state, window, OS
version and the rest of the platform being equal).  On an OS version containing
"11" the call carries the packed recorded colour; for "#ABCDEF", read as
(0xAB, 0xCD, 0xEF), that is 0x00EFCDAB. -/
theorem onActiveChanged_override_ignores_palette (P : Platform) (s : State) (a : Nat)
    (pal1 pal2 : List (String × String))
    (htracked : some a ∈ s.m_windows)
    (hover : QMap.value s.m_colors (some a) ≠ "") :
    onActiveChanged ⟨P.productVersion, pal1, P.qcolor, P.winId⟩ s (some a)
        = onActiveChanged ⟨P.productVersion, pal2, P.qcolor, P.winId⟩ s (some a) ∧
      ((∃ pre post : String, P.productVersion = pre ++ "11" ++ post) →
        onActiveChanged P s (some a) =
          [⟨P.winId a, 35,
            colorref (P.qcolor (QMap.value s.m_colors (some a))).red
              (P.qcolor (QMap.value s.m_colors (some a))).green
              (P.qcolor (QMap.value s.m_colors (some a))).blue, 4⟩]) ∧
      ((∃ pre post : String, P.productVersion = pre ++ "11" ++ post) →
        QMap.value s.m_colors (some a) = "#ABCDEF" →
        P.qcolor "#ABCDEF" = ⟨0xAB, 0xCD, 0xEF⟩ →
        onActiveChanged P s (some a) = [⟨P.winId a, 35, 0x00EFCDAB, 4⟩]) := by
  have hcall : ∀ Q : Platform,
      (∃ pre post : String, Q.productVersion = pre ++ "11" ++ post) →
      onActiveChanged Q s (some a) =
        [⟨Q.winId a, 35,
          colorref (Q.qcolor (QMap.value s.m_colors (some a))).red
            (Q.qcolor (QMap.value s.m_colors (some a))).green
            (Q.qcolor (QMap.value s.m_colors (some a))).blue, 4⟩] := by
    intro Q hQ
    have h := onActiveChanged_tracked Q s a hQ htracked
    rw [effectiveColor_of_override Q s (some a) hover] at h
    exact h
  refine ⟨?_, hcall P, ?_⟩
  · by_cases hver : ∃ pre post : String, P.productVersion = pre ++ "11" ++ post
    · rw [hcall ⟨P.productVersion, pal1, P.qcolor, P.winId⟩ hver,
        hcall ⟨P.productVersion, pal2, P.qcolor, P.winId⟩ hver]
    · rw [onActiveChanged_other_version_aux
          ⟨P.productVersion, pal1, P.qcolor, P.winId⟩ s (some a) hver,
        onActiveChanged_other_version_aux
          ⟨P.productVersion, pal2, P.qcolor, P.winId⟩ s (some a) hver]
  · intro hver hval hq
    have hpack : colorref 0xAB 0xCD 0xEF = 0x00EFCDAB := by decide
    rw [hcall P hver, hval, hq]
    show [DwmCall.mk (P.winId a) 35 (colorref 0xAB 0xCD 0xEF) 4] = _
    rw [hpack]

theorem onActiveChanged_override_ignores_palette_witness :
    onActiveChanged ⟨"11", [("toolbar_top", "#101010")], hexColor, fun a => 4096 + a⟩
        twoWindows (some 3)
        = onActiveChanged ⟨"11", [("toolbar_top", "#FFFFFF")], hexColor, fun a => 4096 + a⟩
          twoWindows (some 3) ∧
      onActiveChanged win11 twoWindows (some 3) = [⟨4099, 35, 0x00EFCDAB, 4⟩] :=
  have h := onActiveChanged_override_ignores_palette win11 twoWindows 3
    [("toolbar_top", "#101010")] [("toolbar_top", "#FFFFFF")] (by decide) (by decide)
  ⟨h.1, h.2.2 ⟨"", "", rfl⟩ (by decide) (by decide)⟩

/-- C8: in a reachable adapter state, `onThemeChanged` runs the
activation-changed handler once per tracked window: the senders of the handler
invocations are the tracked list, in registration order and without
repetition, and the OS calls are those of the handler for each tracked window
in turn.  With no tracked window nothing runs.  The state is unchanged. -/
theorem onThemeChanged_once_per_window (P : Platform) (s : State)
    (hreach : Reachable s) :
    (onThemeChanged P s).activated.map some = s.m_windows ∧
      (onThemeChanged P s).activated.Nodup ∧
      (onThemeChanged P s).dwm = (s.m_windows.map (onActiveChanged P s)).flatten ∧
      (onThemeChanged P s).fault = false ∧
      (onThemeChanged P s).state = s ∧
      (s.m_windows = [] →
        (onThemeChanged P s).activated = [] ∧ (onThemeChanged P s).dwm = []) := by
  obtain ⟨hw, hnd, _⟩ := reachable_consistent s hreach
  have hcount : ∀ a ∈ s.connected, s.connected.count a = 1 :=
    fun a ha => List.count_eq_one_of_mem hnd ha
  have hloop := themeLoop_connected P s s.connected hcount
  have hrun : onThemeChanged P s =
      ⟨s, s.connected,
        (s.connected.map (fun a => onActiveChanged P s (some a))).flatten, false⟩ := by
    unfold onThemeChanged
    rw [hw]
    exact hloop
  rw [hrun]
  refine ⟨hw.symm, hnd, ?_, rfl, rfl, ?_⟩
  · rw [hw, List.map_map]
    rfl
  · intro hnil
    rw [hw] at hnil
    have hc : s.connected = [] := List.map_eq_nil_iff.mp hnil
    simp [hc]

theorem onThemeChanged_once_per_window_witness :
    (onThemeChanged win11 twoWindows).activated.map some = [some 3, some 4] ∧
      (onThemeChanged win11 twoWindows).dwm
        = [⟨4099, 35, 0x00EFCDAB, 4⟩, ⟨4100, 35, 0x00101010, 4⟩] ∧
      (onThemeChanged win11 twoWindows).fault = false :=
  have h := onThemeChanged_once_per_window win11 twoWindows twoWindows_reachable
  ⟨h.1, h.2.2.1.trans (by decide), h.2.2.2.1⟩

/-- C9: in every state reached from the constructed adapter by calls of
`addWindow`, `onThemeChanged` and `onActiveChanged`, a window pointer is a key
of the colour map exactly when it is in the tracked list; the same holds in the
state any further call leaves, whether or not that call runs to completion. -/
theorem reachable_keys_iff_tracked (s : State) (hreach : Reachable s) (w : WinPtr) :
    (w ∈ QMap.keys s.m_colors ↔ w ∈ s.m_windows) ∧
      ∀ (P : Platform) (op : Op),
        w ∈ QMap.keys (step P s op).state.m_colors ↔
          w ∈ (step P s op).state.m_windows := by
  have hinv : ∀ v, v ∈ QMap.keys s.m_colors ↔ v ∈ s.m_windows := by
    induction hreach with
    | init => exact fun _ => Iff.rfl
    | step P s op _ _ ih => exact fun v => step_keys P s op ih v
  exact ⟨hinv w, fun P op => step_keys P s op hinv w⟩

theorem reachable_keys_iff_tracked_witness :
    (some 4 ∈ QMap.keys twoWindows.m_colors ↔ some 4 ∈ twoWindows.m_windows) ∧
      (some 4 ∈ QMap.keys twoWindows.m_colors) :=
  ⟨(reachable_keys_iff_tracked twoWindows twoWindows_reachable (some 4)).1,
    by decide⟩

/-- C10: `titlebarHeight` returns 0 for every argument, a null pointer and a
pointer to something that is not a window included, and leaves the adapter
state as it was. -/
theorem titlebarHeight_zero (s : State) (window : QObjectPtr) :
    titlebarHeight s window = (0, s) ∧
      titlebarHeight s .null = (0, s) ∧
      ∀ addr, titlebarHeight s (.other addr) = (0, s) :=
  ⟨rfl, rfl, fun _ => rfl⟩

end NativeWindow
